import Mathlib

/-!
Shallow embedding of the gemindex sync engine (CLI sync tool for a remote
document store) and proofs about its diff, retry, cancellation and delete
behaviour.

The embedding follows the TypeScript sources:
- the sync-engine diff (two variants: verbatim relative-path identity key,
  and a variant that flattens path separators to underscores),
- the uploader retry loop and the upload/delete scheduling loops,
- the API client delete call.

JS Map objects are modelled as association lists in insertion order; JS
string truthiness (empty string is falsy) is modelled explicitly.
-/

namespace Gemindex

/-- Local file record (CLI types): relative path is the identity source. -/
structure LocalFile where
  relativePath : String
  absolutePath : String
  size : Nat
deriving DecidableEq, Repr

/-- Remote file record (CLI types): originalFileName is the declared original
identity used for matching; sha256 is the optional declared content hash. -/
structure RemoteFile where
  name : String
  displayName : String
  originalFileName : String
  sha256 : Option String
  state : String
deriving DecidableEq, Repr

inductive ActionType
  | upload
  | skip
  | delete
deriving DecidableEq, Repr

/-- One sync action (CLI types): kind, optional local file, optional remote
file, human-readable reason. -/
structure SyncAction where
  type : ActionType
  localFile : Option LocalFile := none
  remoteFile : Option RemoteFile := none
  reason : String
deriving DecidableEq, Repr

/-- The plan: three ordered collections of actions. -/
structure SyncPlan where
  uploads : List SyncAction
  skips : List SyncAction
  deletes : List SyncAction
deriving DecidableEq, Repr

/-- JS string truthiness: the empty string is falsy. -/
def strTruthy (s : String) : Bool := s != ""

/-- Truthiness of an optional string: undefined and the empty string are falsy. -/
def optTruthy : Option String → Bool
  | none => false
  | some s => s != ""

/-- Model of a JS Map with string keys: association list in insertion order. -/
abbrev SMap (α : Type) := List (String × α)

/-- Map.get. -/
def smapGet {α : Type} (m : SMap α) (k : String) : Option α :=
  (m.find? (fun p => p.1 == k)).map (fun p => p.2)

/-- Map.set: overwrite in place if the key is present, else append. -/
def smapSet {α : Type} (m : SMap α) (k : String) (v : α) : SMap α :=
  if m.any (fun p => p.1 == k) then
    m.map (fun p => if p.1 == k then (k, v) else p)
  else
    m ++ [(k, v)]

/-- Map.delete: drop every entry with the given key. -/
def smapDelete {α : Type} (m : SMap α) (k : String) : SMap α :=
  m.filter (fun p => p.1 != k)

/-- sync-engine (flattening variant): replace path separators with underscores,
as in the character replacement of the regular expression. -/
def pathToFilename (relativePath : String) : String :=
  String.mk (relativePath.data.map (fun c => if c == '/' || c == '\\' then '_' else c))

/-- First phase of buildSyncPlan: index remote files by originalFileName,
skipping entries whose originalFileName is falsy. -/
def buildRemoteIndex (remoteFiles : List RemoteFile) : SMap RemoteFile :=
  remoteFiles.foldl
    (fun m remote =>
      if strTruthy remote.originalFileName then smapSet m remote.originalFileName remote
      else m)
    []

/-- Loop body of buildSyncPlan for one local file: classify it against the
current remote index (looked up at the derived identity key), append the
resulting action, and remove the key from the index.  The parameter key is
the identity-key derivation (verbatim in one source variant, separator
flattening in the other). -/
def processLocal (key : String → String) (localHashes : SMap String)
    (st : SyncPlan × SMap RemoteFile) (l : LocalFile) : SyncPlan × SMap RemoteFile :=
  let localHash := smapGet localHashes l.absolutePath
  let k := key l.relativePath
  let plan := st.1
  let plan2 :=
    match smapGet st.2 k with
    | none =>
        { plan with uploads := plan.uploads ++
            [{ type := .upload, localFile := some l, reason := "new file" }] }
    | some remote =>
        if optTruthy remote.sha256 && optTruthy localHash && remote.sha256 != localHash then
          { plan with uploads := plan.uploads ++
              [{ type := .upload, localFile := some l, remoteFile := some remote,
                 reason := "content changed" }] }
        else if !optTruthy remote.sha256 then
          { plan with uploads := plan.uploads ++
              [{ type := .upload, localFile := some l, remoteFile := some remote,
                 reason := "missing remote hash" }] }
        else
          { plan with skips := plan.skips ++
              [{ type := .skip, localFile := some l, remoteFile := some remote,
                 reason := "unchanged" }] }
  (plan2, smapDelete st.2 k)

/-- buildSyncPlan, parametrised by the identity-key derivation: index the
remote files, classify each local file in order, then, when delete mode is
enabled, turn every entry still in the index into a delete action. -/
def buildSyncPlanWith (key : String → String) (localFiles : List LocalFile)
    (localHashes : SMap String) (remoteFiles : List RemoteFile)
    (deleteRemote : Bool) : SyncPlan :=
  let remoteByName := buildRemoteIndex remoteFiles
  let st := localFiles.foldl (processLocal key localHashes) (⟨[], [], []⟩, remoteByName)
  let plan := st.1
  if deleteRemote then
    { plan with deletes := plan.deletes ++
        st.2.map (fun p => { type := .delete, remoteFile := some p.2, reason := "not in local" }) }
  else
    plan

/-- buildSyncPlan, verbatim variant: the identity key is the relative path as is. -/
def buildSyncPlan (localFiles : List LocalFile) (localHashes : SMap String)
    (remoteFiles : List RemoteFile) (deleteRemote : Bool) : SyncPlan :=
  buildSyncPlanWith (fun p => p) localFiles localHashes remoteFiles deleteRemote

/-- buildSyncPlan, flattening variant: the identity key is the relative path
with path separators replaced by underscores. -/
def buildSyncPlanFlat (localFiles : List LocalFile) (localHashes : SMap String)
    (remoteFiles : List RemoteFile) (deleteRemote : Bool) : SyncPlan :=
  buildSyncPlanWith pathToFilename localFiles localHashes remoteFiles deleteRemote

/-- Result of one upload action (CLI types). -/
structure UploadResult where
  action : SyncAction
  success : Bool
  error : Option String := none
  retries : Nat
  cancelled : Bool := false
deriving DecidableEq, Repr

/-- Result of one delete action (CLI types). -/
structure DeleteResult where
  action : SyncAction
  success : Bool
  error : Option String := none
deriving DecidableEq, Repr

/-- Outcome of one client.uploadFile call inside the retry loop: the call
resolved with success true, resolved with success false carrying an optional
error message, or threw with a message. -/
inductive AttemptOutcome
  | success
  | failure (error : Option String)
  | exception (message : String)
deriving DecidableEq, Repr

/-- Char-list test: the second list is an initial segment of the first. -/
def startsWithB : List Char → List Char → Bool
  | _, [] => true
  | [], _ :: _ => false
  | c :: cs, d :: ds => c == d && startsWithB cs ds

/-- Char-list test: the second list occurs contiguously inside the first. -/
def hasSubList : List Char → List Char → Bool
  | [], pat => pat.isEmpty
  | c :: cs, pat => startsWithB (c :: cs) pat || hasSubList cs pat

/-- Substring test (String.prototype.includes). -/
def containsSub (s pat : String) : Bool := hasSubList s.data pat.data

/-- Optional-chained includes on an optional error message. -/
def optIncludes (e : Option String) (pat : String) : Bool :=
  match e with
  | some s => containsSub s pat
  | none => false

/-- The client-error test of the uploader: the failure message mentions 400
or 403, in which case the retry loop breaks. -/
def clientErrB (e : Option String) : Bool := optIncludes e "400" || optIncludes e "403"

/-- An attempt outcome that consumes retry budget without ending the loop:
a failure whose message is not classified client-side, or a thrown error. -/
def retryableB : AttemptOutcome → Bool
  | .success => false
  | .failure e => !clientErrB e
  | .exception _ => true

/-- The retry loop of uploadWithRetry with the cancellation signal never set.
attempts i is the outcome of the i-th client.uploadFile call; fuel counts the
remaining iterations of the attempt loop, so attempt + fuel = maxRetries + 1
throughout.  On exhaustion the result reports retries = maxRetries with the
last error; on a client error the loop breaks to the same final return. -/
def retryLoop (attempts : Nat → AttemptOutcome) (action : SyncAction) (maxRetries : Nat) :
    Nat → Nat → Option String → UploadResult
  | _, 0, lastError =>
      { action := action, success := false, error := lastError, retries := maxRetries }
  | attempt, fuel + 1, _ =>
      match attempts attempt with
      | .success => { action := action, success := true, retries := attempt }
      | .failure e =>
          if clientErrB e then
            { action := action, success := false, error := e, retries := maxRetries }
          else
            retryLoop attempts action maxRetries (attempt + 1) fuel e
      | .exception m =>
          retryLoop attempts action maxRetries (attempt + 1) fuel (some m)

/-- uploadWithRetry (uploader): reject actions without a local file, then run
the attempt loop from attempt 0 with maxRetries + 1 iterations available. -/
def uploadWithRetry (attempts : Nat → AttemptOutcome) (action : SyncAction)
    (maxRetries : Nat) : UploadResult :=
  match action.localFile with
  | none => { action := action, success := false, error := some "No local file", retries := 0 }
  | some _ => retryLoop attempts action maxRetries 0 (maxRetries + 1) none

/-- Number of client.uploadFile calls the retry loop performs (same recursion
as retryLoop, counting one call per executed iteration). -/
def retryLoopCalls (attempts : Nat → AttemptOutcome) : Nat → Nat → Nat
  | _, 0 => 0
  | attempt, fuel + 1 =>
      match attempts attempt with
      | .success => 1
      | .failure e => if clientErrB e then 1 else 1 + retryLoopCalls attempts (attempt + 1) fuel
      | .exception _ => 1 + retryLoopCalls attempts (attempt + 1) fuel

/-- Number of client.uploadFile calls uploadWithRetry performs in total. -/
def uploadWithRetryCalls (attempts : Nat → AttemptOutcome) (action : SyncAction)
    (maxRetries : Nat) : Nat :=
  match action.localFile with
  | none => 0
  | some _ => retryLoopCalls attempts 0 (maxRetries + 1)

/-- Result executeUploads records for an action reached after the signal is
observed set: marked cancelled, never handed to the queue. -/
def cancelledUploadResult (action : SyncAction) : UploadResult :=
  { action := action, success := false, error := some "Cancelled", retries := 0,
    cancelled := true }

/-- The scheduling loop of executeUploads: sig i tells whether the abort
signal is observed set when the i-th action is considered; run gives the
result an action obtains when it is actually scheduled (uploadWithRetry).
Completion order of scheduled actions is nondeterministic in the source; the
loop-order list is a fixed representative, and the theorems below only use
per-action facts that hold under any completion order. -/
def executeUploadsLoop (run : SyncAction → UploadResult) (sig : Nat → Bool) :
    Nat → List SyncAction → List UploadResult
  | _, [] => []
  | i, action :: rest =>
      if sig i then
        cancelledUploadResult action :: executeUploadsLoop run sig (i + 1) rest
      else
        run action :: executeUploadsLoop run sig (i + 1) rest

/-- The scheduling loop of executeDeletes: when the abort signal is observed
set the loop breaks, recording nothing for the remaining actions; an action
without a remote file records an immediate failure; otherwise the action is
scheduled and obtains the result given by run. -/
def executeDeletesLoop (run : SyncAction → DeleteResult) (sig : Nat → Bool) :
    Nat → List SyncAction → List DeleteResult
  | _, [] => []
  | i, action :: rest =>
      if sig i then
        []
      else
        match action.remoteFile with
        | none =>
            { action := action, success := false, error := some "No remote file" } ::
              executeDeletesLoop run sig (i + 1) rest
        | some _ => run action :: executeDeletesLoop run sig (i + 1) rest

/-- An HTTP response as observed by the API client: ok flag, status code and
the error message parsed from the body. -/
structure HttpResponse where
  ok : Bool
  status : Nat
  message : String
deriving DecidableEq, Repr

/-- ApiClient.deleteFile: issue the DELETE request (response is its outcome);
throw unless the response is ok or its status is 404. -/
def deleteFile (storeName documentName : String) (response : HttpResponse) :
    Except String Unit :=
  if !response.ok && response.status != 404 then
    Except.error ("Failed to delete file: " ++ response.message)
  else
    Except.ok ()

/-- Remote entry left behind by a successful first-run upload of a local
file: the upload stores the display name it was given (uploadWithRetry passes
the relative path) as the declared original identity, together with the
content hash of the file. -/
def uploadedRemote (localHashes : SMap String) (l : LocalFile) : RemoteFile :=
  { name := l.relativePath, displayName := l.relativePath,
    originalFileName := l.relativePath,
    sha256 := smapGet localHashes l.absolutePath, state := "ACTIVE" }

/-! Concrete inputs for the worked example of the spec: two local files with
hashes hX and hY, two remote entries with declared hashes hX and hZ. -/

def exLocalA : LocalFile := ⟨"a.txt", "/root/a.txt", 1⟩

def exLocalB : LocalFile := ⟨"b.txt", "/root/b.txt", 1⟩

def exRemoteA : RemoteFile := ⟨"files/1", "a.txt", "a.txt", some "hashX", "ACTIVE"⟩

def exRemoteC : RemoteFile := ⟨"files/2", "c.txt", "c.txt", some "hashZ", "ACTIVE"⟩

def exHashes : SMap String := [("/root/a.txt", "hashX"), ("/root/b.txt", "hashY")]

/-- Claim C3, counterexample to the claim as stated: on the worked example the
single delete action carries reason "not in local", not the reason
"not present locally" the claim asserts. -/
theorem C3_counterexample :
    (buildSyncPlan [exLocalA, exLocalB] exHashes [exRemoteA, exRemoteC] true).deletes.map
        SyncAction.reason = ["not in local"] ∧
      ("not in local" : String) ≠ "not present locally" := by
  constructor
  · rfl
  · decide

/-- Claim C3 (amended): for local files a.txt (digest hashX) and b.txt (digest
hashY) and remote files a.txt (declared hashX) and c.txt (declared hashZ)
with delete mode enabled, buildSyncPlan returns exactly uploads = [b.txt,
reason new file], skips = [a.txt, reason unchanged], deletes = [c.txt, reason
"not in local"] (the source reason string, where the claim said
"not present locally"). -/
theorem C3_plan :
    buildSyncPlan [exLocalA, exLocalB] exHashes [exRemoteA, exRemoteC] true =
      ⟨[⟨.upload, some exLocalB, none, "new file"⟩],
       [⟨.skip, some exLocalA, some exRemoteA, "unchanged"⟩],
       [⟨.delete, none, some exRemoteC, "not in local"⟩]⟩ := by
  rfl

/-- Claim C9: deleteFile is idempotent with respect to missing targets — for
every store and file identity, a not-found (404) response completes
successfully exactly as an ok response does, and any other non-ok response
raises an error. -/
theorem C9_deleteFile_idempotent (storeName documentName : String) (response : HttpResponse) :
    (response.ok = false → response.status = 404 →
      deleteFile storeName documentName response = Except.ok ()) ∧
    (response.ok = false → response.status ≠ 404 →
      deleteFile storeName documentName response =
        Except.error ("Failed to delete file: " ++ response.message)) ∧
    (response.ok = true → deleteFile storeName documentName response = Except.ok ()) := by
  unfold deleteFile
  refine ⟨fun hok h404 => ?_, fun hok h404 => ?_, fun hok => ?_⟩
  · simp [hok, h404]
  · simp [hok, h404]
  · simp [hok]

/-- Witness for C9: a 404 delete response succeeds, a 500 one raises. -/
theorem C9_witness :
    deleteFile "s" "doc" ⟨false, 404, "m"⟩ = Except.ok () ∧
    deleteFile "s" "doc" ⟨false, 500, "boom"⟩ =
      Except.error "Failed to delete file: boom" :=
  ⟨(C9_deleteFile_idempotent "s" "doc" ⟨false, 404, "m"⟩).1 rfl rfl,
   ((C9_deleteFile_idempotent "s" "doc" ⟨false, 500, "boom"⟩).2.1 rfl (by decide)).trans
     (by rfl)⟩

/-- Claim C10: a local file matched to a remote entry with a declared
(nonempty) hash is classified as a skip with reason unchanged when the
local-hash map has no entry for its absolute path, rather than as an
upload. -/
theorem C10_missing_local_hash_skips (localHashes : SMap String)
    (st : SyncPlan × SMap RemoteFile) (l : LocalFile) (remote : RemoteFile) (rh : String)
    (hmatch : smapGet st.2 l.relativePath = some remote)
    (hdecl : remote.sha256 = some rh) (hrh : rh ≠ "")
    (hmiss : smapGet localHashes l.absolutePath = none) :
    (processLocal (fun p => p) localHashes st l).1.skips =
        st.1.skips ++ [⟨.skip, some l, some remote, "unchanged"⟩] ∧
      (processLocal (fun p => p) localHashes st l).1.uploads = st.1.uploads := by
  unfold processLocal
  simp [hmatch, hmiss, hdecl, optTruthy, hrh]

def w10L : LocalFile := ⟨"f.txt", "/root/f.txt", 1⟩

def w10R : RemoteFile := ⟨"files/3", "f.txt", "f.txt", some "hQ", "ACTIVE"⟩

/-- Witness for C10: a matched file with no local hash entry is skipped. -/
theorem C10_witness :
    (processLocal (fun p => p) ([] : SMap String)
        (⟨⟨[], [], []⟩, [("f.txt", w10R)]⟩) w10L).1.skips =
      [⟨.skip, some w10L, some w10R, "unchanged"⟩] :=
  ((C10_missing_local_hash_skips [] ⟨⟨[], [], []⟩, [("f.txt", w10R)]⟩ w10L w10R "hQ"
        rfl rfl (by decide) rfl).1).trans (by rfl)

/-- Claim C2: classification of a local file whose digest is present follows
the priority order of the source — no remote match gives an upload with
reason new file; a match with a declared hash different from the digest gives
an upload with reason content changed; a match without a declared hash gives
an upload with reason missing remote hash; a match whose declared hash equals
the digest gives a skip with reason unchanged — for every file, whatever its
name or size. -/
theorem C2_classification (localHashes : SMap String) (st : SyncPlan × SMap RemoteFile)
    (l : LocalFile) (lh : String)
    (hlh : smapGet localHashes l.absolutePath = some lh) (hlh0 : lh ≠ "") :
    (smapGet st.2 l.relativePath = none →
        (processLocal (fun p => p) localHashes st l).1.uploads =
            st.1.uploads ++ [⟨.upload, some l, none, "new file"⟩] ∧
          (processLocal (fun p => p) localHashes st l).1.skips = st.1.skips) ∧
    (∀ remote, smapGet st.2 l.relativePath = some remote →
      (∀ rh, remote.sha256 = some rh → rh ≠ "" → rh ≠ lh →
          (processLocal (fun p => p) localHashes st l).1.uploads =
              st.1.uploads ++ [⟨.upload, some l, some remote, "content changed"⟩] ∧
            (processLocal (fun p => p) localHashes st l).1.skips = st.1.skips) ∧
      (remote.sha256 = none →
          (processLocal (fun p => p) localHashes st l).1.uploads =
              st.1.uploads ++ [⟨.upload, some l, some remote, "missing remote hash"⟩] ∧
            (processLocal (fun p => p) localHashes st l).1.skips = st.1.skips) ∧
      (remote.sha256 = some lh →
          (processLocal (fun p => p) localHashes st l).1.skips =
              st.1.skips ++ [⟨.skip, some l, some remote, "unchanged"⟩] ∧
            (processLocal (fun p => p) localHashes st l).1.uploads = st.1.uploads)) := by
  refine ⟨fun hnone => ?_,
    fun remote hsome => ⟨fun rh hrh hrh0 hne => ?_, fun hnone2 => ?_, fun heq => ?_⟩⟩
  · unfold processLocal
    simp [hnone]
  · unfold processLocal
    simp [hsome, hlh, hrh, optTruthy, hrh0, hlh0, hne]
  · unfold processLocal
    simp [hsome, hlh, hnone2, optTruthy, hlh0]
  · unfold processLocal
    simp [hsome, hlh, heq, optTruthy, hlh0]

def w2L : LocalFile := ⟨"x.txt", "/root/x.txt", 1⟩

def w2R : RemoteFile := ⟨"files/4", "x.txt", "x.txt", some "h2", "ACTIVE"⟩

def w2H : SMap String := [("/root/x.txt", "h1")]

/-- Witness for C2: a matched file whose declared hash differs from its local
digest is classified as an upload with reason content changed. -/
theorem C2_witness :
    (processLocal (fun p => p) w2H (⟨⟨[], [], []⟩, [("x.txt", w2R)]⟩) w2L).1.uploads =
      [⟨.upload, some w2L, some w2R, "content changed"⟩] :=
  (((C2_classification w2H ⟨⟨[], [], []⟩, [("x.txt", w2R)]⟩ w2L "h1" rfl (by decide)).2 w2R
        rfl).1 "h2" rfl (by decide) (by decide)).1.trans (by rfl)

/-! Helper lemmas about the retry loop. -/

theorem retryLoop_all_retryable (attempts : Nat → AttemptOutcome) (a : SyncAction) (N : Nat)
    (h : ∀ i, retryableB (attempts i) = true) :
    ∀ fuel attempt e0, (retryLoop attempts a N attempt fuel e0).success = false ∧
      (retryLoop attempts a N attempt fuel e0).retries = N := by
  intro fuel
  induction fuel with
  | zero => intro attempt e0; exact ⟨rfl, rfl⟩
  | succ n ih =>
      intro attempt e0
      have hr := h attempt
      cases hout : attempts attempt with
      | success => rw [hout] at hr; simp [retryableB] at hr
      | failure e =>
          rw [hout] at hr
          simp only [retryableB, Bool.not_eq_true'] at hr
          unfold retryLoop
          simp only [hout]
          rw [hr]
          simp only [Bool.false_eq_true, if_false]
          exact ih _ _
      | exception m =>
          unfold retryLoop
          simp only [hout]
          exact ih _ _

theorem retryLoop_success_at (attempts : Nat → AttemptOutcome) (a : SyncAction) (N k : Nat)
    (hk : k ≤ N)
    (hprev : ∀ i, i < k → retryableB (attempts i) = true)
    (hsucc : attempts k = .success) :
    ∀ fuel attempt e0, attempt + fuel = N + 1 → attempt ≤ k →
      retryLoop attempts a N attempt fuel e0 =
        { action := a, success := true, retries := k } := by
  intro fuel
  induction fuel with
  | zero => intro attempt e0 hsum hle; omega
  | succ n ih =>
      intro attempt e0 hsum hle
      rcases Nat.eq_or_lt_of_le hle with heq | hlt
      · subst heq
        unfold retryLoop
        simp [hsucc]
      · have hr := hprev attempt hlt
        cases hout : attempts attempt with
        | success => rw [hout] at hr; simp [retryableB] at hr
        | failure e =>
            rw [hout] at hr
            simp only [retryableB, Bool.not_eq_true'] at hr
            unfold retryLoop
            simp only [hout]
            rw [hr]
            simp only [Bool.false_eq_true, if_false]
            exact ih (attempt + 1) _ (by omega) (by omega)
        | exception m =>
            unfold retryLoop
            simp only [hout]
            exact ih (attempt + 1) _ (by omega) (by omega)

theorem retryLoopCalls_le (attempts : Nat → AttemptOutcome) :
    ∀ fuel attempt, retryLoopCalls attempts attempt fuel ≤ fuel := by
  intro fuel
  induction fuel with
  | zero => intro attempt; exact Nat.le_refl 0
  | succ n ih =>
      intro attempt
      unfold retryLoopCalls
      cases hout : attempts attempt with
      | success => simp only [hout]; omega
      | failure e =>
          simp only [hout]
          by_cases hce : clientErrB e = true
          · rw [hce]
            simp only [if_true]
            omega
          · simp only [Bool.not_eq_true] at hce
            rw [hce]
            simp only [Bool.false_eq_true, if_false]
            have := ih (attempt + 1)
            omega
      | exception m =>
          simp only [hout]
          have := ih (attempt + 1)
          omega

theorem retryLoop_client_error (attempts : Nat → AttemptOutcome) (a : SyncAction) (N k : Nat)
    (e : Option String) (hk : k ≤ N)
    (hprev : ∀ i, i < k → retryableB (attempts i) = true)
    (hfail : attempts k = .failure e) (hce : clientErrB e = true) :
    ∀ fuel attempt e0, attempt + fuel = N + 1 → attempt ≤ k →
      retryLoop attempts a N attempt fuel e0 =
          { action := a, success := false, error := e, retries := N } ∧
        retryLoopCalls attempts attempt fuel = (k + 1) - attempt := by
  intro fuel
  induction fuel with
  | zero => intro attempt e0 hsum hle; omega
  | succ n ih =>
      intro attempt e0 hsum hle
      rcases Nat.eq_or_lt_of_le hle with heq | hlt
      · subst heq
        constructor
        · unfold retryLoop
          simp [hfail, hce]
        · unfold retryLoopCalls
          simp [hfail, hce]
      · have hr := hprev attempt hlt
        cases hout : attempts attempt with
        | success => rw [hout] at hr; simp [retryableB] at hr
        | failure e2 =>
            rw [hout] at hr
            simp only [retryableB, Bool.not_eq_true'] at hr
            have hrec := ih (attempt + 1) e2 (by omega) (by omega)
            constructor
            · unfold retryLoop
              simp only [hout]
              rw [hr]
              simp only [Bool.false_eq_true, if_false]
              exact hrec.1
            · unfold retryLoopCalls
              simp only [hout]
              rw [hr]
              simp only [Bool.false_eq_true, if_false]
              rw [hrec.2]
              omega
        | exception m =>
            have hrec := ih (attempt + 1) (some m) (by omega) (by omega)
            constructor
            · unfold retryLoop
              simp only [hout]
              exact hrec.1
            · unfold retryLoopCalls
              simp only [hout]
              rw [hrec.2]
              omega

def cex5Action : SyncAction := ⟨.upload, some ⟨"a.txt", "/root/a.txt", 1⟩, none, "new file"⟩

/-- Claim C5, counterexample to the claim as stated: with the default retry
budget 3 and every attempt failing transiently, uploadWithRetry makes 4
client calls, not at most 3 — the loop runs attempts 0 through maxRetries
inclusive. -/
theorem C5_counterexample :
    uploadWithRetryCalls (fun _ => .failure (some "socket hang up")) cex5Action 3 = 4 ∧
      retryableB (AttemptOutcome.failure (some "socket hang up")) = true ∧
      ¬(uploadWithRetryCalls (fun _ => .failure (some "socket hang up")) cex5Action 3 ≤ 3) := by
  decide

/-- Claim C5 (amended): with retry budget N, all attempts failing transiently
gives a failed result with retries = N; the first N − 1 attempts failing
transiently and the next succeeding gives a successful result with
retries = N − 1; and in total at most N + 1 upload calls are made (4 with the
default budget of 3, not 3 as the claim stated). -/
theorem C5_retry_accounting (attempts : Nat → AttemptOutcome) (a : SyncAction) (f : LocalFile)
    (N : Nat) (hlf : a.localFile = some f) (hN : 1 ≤ N) :
    ((∀ i, retryableB (attempts i) = true) →
        (uploadWithRetry attempts a N).success = false ∧
          (uploadWithRetry attempts a N).retries = N) ∧
    ((∀ i, i < N - 1 → retryableB (attempts i) = true) → attempts (N - 1) = .success →
        (uploadWithRetry attempts a N).success = true ∧
          (uploadWithRetry attempts a N).retries = N - 1) ∧
    uploadWithRetryCalls attempts a N ≤ N + 1 := by
  unfold uploadWithRetry uploadWithRetryCalls
  simp only [hlf]
  refine ⟨fun h => retryLoop_all_retryable attempts a N h (N + 1) 0 none,
    fun h hs => ?_, retryLoopCalls_le attempts (N + 1) 0⟩
  rw [retryLoop_success_at attempts a N (N - 1) (by omega) h hs (N + 1) 0 none (by omega)
    (by omega)]
  exact ⟨rfl, rfl⟩

def w5Action : SyncAction := ⟨.upload, some ⟨"b.txt", "/root/b.txt", 1⟩, none, "new file"⟩

def w5Attempts : Nat → AttemptOutcome :=
  fun i => if i = 0 then .failure (some "ETIMEDOUT") else .success

/-- Witness for C5: budget 2, one transient failure then success gives a
successful result with retries = 1. -/
theorem C5_witness :
    (uploadWithRetry w5Attempts w5Action 2).success = true ∧
      (uploadWithRetry w5Attempts w5Action 2).retries = 1 :=
  (C5_retry_accounting w5Attempts w5Action ⟨"b.txt", "/root/b.txt", 1⟩ 2 rfl (by decide)).2.1
    (fun i hi => by
      have h0 : i = 0 := by omega
      subst h0
      decide)
    (by decide)

/-- Claim C8: when the attempts before k fail transiently and attempt k fails
with an error classified client-side (message mentioning 400 or 403),
uploadWithRetry stops there — k + 1 calls in total regardless of remaining
budget — and returns a failed result carrying that error. -/
theorem C8_client_error_immediate (attempts : Nat → AttemptOutcome) (a : SyncAction)
    (f : LocalFile) (N k : Nat) (e : Option String)
    (hlf : a.localFile = some f) (hk : k ≤ N)
    (hprev : ∀ i, i < k → retryableB (attempts i) = true)
    (hfail : attempts k = .failure e) (hce : clientErrB e = true) :
    uploadWithRetry attempts a N =
        { action := a, success := false, error := e, retries := N } ∧
      uploadWithRetryCalls attempts a N = k + 1 := by
  unfold uploadWithRetry uploadWithRetryCalls
  simp only [hlf]
  have h := retryLoop_client_error attempts a N k e hk hprev hfail hce (N + 1) 0 none
    (by omega) (by omega)
  refine ⟨h.1, ?_⟩
  rw [h.2]
  omega

def w8Action : SyncAction := ⟨.upload, some ⟨"c.txt", "/root/c.txt", 1⟩, none, "new file"⟩

/-- Witness for C8: a 403 failure on the first attempt ends the action after
a single call despite budget 3. -/
theorem C8_witness :
    uploadWithRetry (fun _ => .failure (some "HTTP 403 Forbidden")) w8Action 3 =
        { action := w8Action, success := false, error := some "HTTP 403 Forbidden",
          retries := 3 } ∧
      uploadWithRetryCalls (fun _ => .failure (some "HTTP 403 Forbidden")) w8Action 3 = 1 :=
  C8_client_error_immediate (fun _ => .failure (some "HTTP 403 Forbidden")) w8Action
    ⟨"c.txt", "/root/c.txt", 1⟩ 3 0 (some "HTTP 403 Forbidden") rfl (by omega)
    (fun i hi => absurd hi (Nat.not_lt_zero i)) rfl (by decide)

theorem executeUploadsLoop_cancelled (run : SyncAction → UploadResult) (sig : Nat → Bool)
    (hmono : ∀ j k, j ≤ k → sig j = true → sig k = true) :
    ∀ (actions : List SyncAction) (i : Nat), sig i = true →
      executeUploadsLoop run sig i actions = actions.map cancelledUploadResult := by
  intro actions
  induction actions with
  | nil => intro i hi; rfl
  | cons a rest ih =>
      intro i hi
      unfold executeUploadsLoop
      rw [hi]
      simp only [if_true]
      rw [ih (i + 1) (hmono i (i + 1) (by omega) hi)]
      rfl

def cex6Action : SyncAction :=
  ⟨.delete, none, some ⟨"files/9", "z.txt", "z.txt", some "h", "ACTIVE"⟩, "not in local"⟩

def cex6Run : SyncAction → DeleteResult := fun a => ⟨a, true, none⟩

/-- Claim C6, counterexample to the claim as stated: with the signal already
set, a queued delete action yields no result at all — the delete loop breaks
and the action is silently dropped, not recorded as cancelled. -/
theorem C6_counterexample :
    executeDeletesLoop cex6Run (fun _ => true) 0 [cex6Action] = [] ∧
      cex6Action.remoteFile.isSome = true := by
  decide

/-- Claim C6 (amended): once the cancellation signal is set, every queued
upload action is recorded as a cancelled result — never failed-without-
cancellation — without being handed to the runner, while every queued delete
action is silently dropped with no result (the source breaks out of the
delete loop rather than recording cancellations). -/
theorem C6_cancelled_queued (run : SyncAction → UploadResult)
    (drun : SyncAction → DeleteResult) (sig : Nat → Bool) (i : Nat)
    (actions dactions : List SyncAction)
    (hmono : ∀ j k, j ≤ k → sig j = true → sig k = true)
    (hset : sig i = true) :
    executeUploadsLoop run sig i actions = actions.map cancelledUploadResult ∧
      (∀ r ∈ executeUploadsLoop run sig i actions,
        r.cancelled = true ∧ r.success = false ∧ r.retries = 0 ∧
          r.error = some "Cancelled") ∧
      executeDeletesLoop drun sig i dactions = [] := by
  have hu := executeUploadsLoop_cancelled run sig hmono actions i hset
  refine ⟨hu, ?_, ?_⟩
  · intro r hr
    rw [hu] at hr
    rcases List.mem_map.mp hr with ⟨a, _, rfl⟩
    exact ⟨rfl, rfl, rfl, rfl⟩
  · cases dactions with
    | nil => rfl
    | cons a rest =>
        unfold executeDeletesLoop
        rw [hset]
        simp

def w6Upload : SyncAction := ⟨.upload, some ⟨"u.txt", "/root/u.txt", 1⟩, none, "new file"⟩

def w6Delete : SyncAction :=
  ⟨.delete, none, some ⟨"files/7", "v.txt", "v.txt", some "h", "ACTIVE"⟩, "not in local"⟩

def w6Run : SyncAction → UploadResult := fun a => ⟨a, true, none, 0, false⟩

def w6DRun : SyncAction → DeleteResult := fun a => ⟨a, true, none⟩

/-- Witness for C6: with the signal set from the start, one queued upload is
recorded cancelled and one queued delete is dropped. -/
theorem C6_witness :
    executeUploadsLoop w6Run (fun _ => true) 0 [w6Upload] =
        [cancelledUploadResult w6Upload] ∧
      executeDeletesLoop w6DRun (fun _ => true) 0 [w6Delete] = [] :=
  ⟨(C6_cancelled_queued w6Run w6DRun (fun _ => true) 0 [w6Upload] [w6Delete]
      (fun _ _ _ h => h) rfl).1,
   (C6_cancelled_queued w6Run w6DRun (fun _ => true) 0 [w6Upload] [w6Delete]
      (fun _ _ _ h => h) rfl).2.2⟩

/-! Helper lemmas comparing the two identity-key derivations. -/

theorem processLocal_key_congr (k1 k2 : String → String) (hashes : SMap String)
    (st : SyncPlan × SMap RemoteFile) (l : LocalFile)
    (h : k1 l.relativePath = k2 l.relativePath) :
    processLocal k1 hashes st l = processLocal k2 hashes st l := by
  unfold processLocal
  rw [h]

theorem foldl_processLocal_congr (k1 k2 : String → String) (hashes : SMap String) :
    ∀ (ls : List LocalFile) (init : SyncPlan × SMap RemoteFile),
      (∀ l ∈ ls, k1 l.relativePath = k2 l.relativePath) →
      ls.foldl (processLocal k1 hashes) init = ls.foldl (processLocal k2 hashes) init := by
  intro ls
  induction ls with
  | nil => intro init _; rfl
  | cons a rest ih =>
      intro init hp
      simp only [List.foldl_cons]
      rw [processLocal_key_congr k1 k2 hashes init a (hp a (List.mem_cons_self a rest))]
      exact ih _ (fun l hl => hp l (List.mem_cons_of_mem a hl))

theorem pathToFilename_eq_self (s : String)
    (h : ∀ c ∈ s.data, ¬(c = '/' ∨ c = '\\')) : pathToFilename s = s := by
  unfold pathToFilename
  have h2 : ∀ c ∈ s.data, (fun c => if c == '/' || c == '\\' then '_' else c) c = id c := by
    intro c hc
    have hc2 := h c hc
    push_neg at hc2
    simp [hc2.1, hc2.2]
  rw [List.map_congr_left h2, List.map_id]

def c7Local : LocalFile := ⟨"docs/guide.md", "/root/docs/guide.md", 1⟩

def c7Remote : RemoteFile := ⟨"files/5", "docs_guide.md", "docs_guide.md", some "h1", "ACTIVE"⟩

def c7Hashes : SMap String := [("/root/docs/guide.md", "h1")]

/-- Claim C7: the verbatim-key and flattened-key buildSyncPlan variants agree
whenever no local relative path contains a path separator, and on a nested
local path whose remote identity was written by the flattening variant the
verbatim variant reports an upload with reason new file while the flattening
variant reports a skip. -/
theorem C7_identity_key_variants :
    (∀ (locals : List LocalFile) (hashes : SMap String) (remotes : List RemoteFile)
        (flag : Bool),
      (∀ l ∈ locals, ∀ c ∈ l.relativePath.data, ¬(c = '/' ∨ c = '\\')) →
      buildSyncPlan locals hashes remotes flag = buildSyncPlanFlat locals hashes remotes flag) ∧
    (buildSyncPlan [c7Local] c7Hashes [c7Remote] false =
        ⟨[⟨.upload, some c7Local, none, "new file"⟩], [], []⟩ ∧
      buildSyncPlanFlat [c7Local] c7Hashes [c7Remote] false =
        ⟨[], [⟨.skip, some c7Local, some c7Remote, "unchanged"⟩], []⟩) := by
  refine ⟨fun locals hashes remotes flag hsep => ?_, by decide, by decide⟩
  unfold buildSyncPlan buildSyncPlanFlat buildSyncPlanWith
  simp only [foldl_processLocal_congr (fun p => p) pathToFilename hashes locals
    (⟨[], [], []⟩, buildRemoteIndex remotes)
    (fun l hl => (pathToFilename_eq_self l.relativePath (hsep l hl)).symm)]

def w7Local : LocalFile := ⟨"a.txt", "/root/a.txt", 1⟩

/-- Witness for C7: on a separator-free input the two variants agree. -/
theorem C7_witness :
    buildSyncPlan [w7Local] [("/root/a.txt", "h9")] [] true =
      buildSyncPlanFlat [w7Local] [("/root/a.txt", "h9")] [] true :=
  C7_identity_key_variants.1 [w7Local] [("/root/a.txt", "h9")] [] true (by decide)

/-! Shape of the remote index when identities are nonempty and distinct. -/

theorem buildRemoteIndex_aux :
    ∀ (rs : List RemoteFile) (acc : SMap RemoteFile),
      (∀ r ∈ rs, r.originalFileName ≠ "") →
      (∀ r ∈ rs, ∀ p ∈ acc, p.1 ≠ r.originalFileName) →
      (rs.map RemoteFile.originalFileName).Nodup →
      rs.foldl
        (fun m remote =>
          if strTruthy remote.originalFileName then smapSet m remote.originalFileName remote
          else m)
        acc = acc ++ rs.map (fun r => (r.originalFileName, r)) := by
  intro rs
  induction rs with
  | nil => intro acc _ _ _; simp
  | cons r rest ih =>
      intro acc hne hfresh hnd
      simp only [List.foldl_cons]
      have htr : strTruthy r.originalFileName = true := by
        have := hne r (List.mem_cons_self r rest)
        simp [strTruthy, this]
      rw [htr]
      simp only [if_true]
      have hany : acc.any (fun p => p.1 == r.originalFileName) = false := by
        rw [List.any_eq_false]
        intro p hp
        simp only [beq_iff_eq]
        exact hfresh r (List.mem_cons_self r rest) p hp
      have hset : smapSet acc r.originalFileName r = acc ++ [(r.originalFileName, r)] := by
        unfold smapSet
        rw [hany]
        simp
      rw [hset]
      rw [ih (acc ++ [(r.originalFileName, r)])
        (fun r2 h2 => hne r2 (List.mem_cons_of_mem r h2))
        (fun r2 h2 p hp => by
          rcases List.mem_append.mp hp with hpa | hpb
          · exact hfresh r2 (List.mem_cons_of_mem r h2) p hpa
          · have hp1 : p = (r.originalFileName, r) := by simpa using hpb
            subst hp1
            simp only [List.map_cons, List.nodup_cons] at hnd
            intro hcontra
            have hc2 : r.originalFileName = r2.originalFileName := hcontra
            exact hnd.1 (by
              rw [hc2]
              exact List.mem_map_of_mem RemoteFile.originalFileName h2))
        (by simp only [List.map_cons, List.nodup_cons] at hnd; exact hnd.2)]
      simp

theorem buildRemoteIndex_eq_map (rs : List RemoteFile)
    (hne : ∀ r ∈ rs, r.originalFileName ≠ "")
    (hnd : (rs.map RemoteFile.originalFileName).Nodup) :
    buildRemoteIndex rs = rs.map (fun r => (r.originalFileName, r)) := by
  unfold buildRemoteIndex
  rw [buildRemoteIndex_aux rs [] hne (fun r _ p hp => absurd hp (List.not_mem_nil p)) hnd]
  simp

/-- When every local file is already present remotely under its relative path
with its own content hash, each step of the plan loop skips the head file and
leaves the index of the remaining files. -/
theorem C4_fold (hashes : SMap String) :
    ∀ (ls : List LocalFile) (p : SyncPlan),
      (∀ l ∈ ls, l.relativePath ≠ "") →
      (∀ l ∈ ls, ∃ h, smapGet hashes l.absolutePath = some h ∧ h ≠ "") →
      (ls.map LocalFile.relativePath).Nodup →
      ls.foldl (processLocal (fun q => q) hashes)
        (p, ls.map (fun l => (l.relativePath, uploadedRemote hashes l))) =
        ({ p with skips := p.skips ++ ls.map (fun l =>
            ⟨.skip, some l, some (uploadedRemote hashes l), "unchanged"⟩) }, []) := by
  intro ls
  induction ls with
  | nil => intro p _ _ _; simp
  | cons l rest ih =>
      intro p hne hh hnd
      simp only [List.map_cons, List.foldl_cons]
      rcases hh l (List.mem_cons_self l rest) with ⟨h, hget, hne0⟩
      simp only [List.map_cons, List.nodup_cons] at hnd
      have hstep : processLocal (fun q => q) hashes
          (p, (l.relativePath, uploadedRemote hashes l) ::
            rest.map (fun l2 => (l2.relativePath, uploadedRemote hashes l2))) l =
          ({ p with skips := p.skips ++
              [⟨.skip, some l, some (uploadedRemote hashes l), "unchanged"⟩] },
            rest.map (fun l2 => (l2.relativePath, uploadedRemote hashes l2))) := by
        unfold processLocal
        have hfind : smapGet
            ((l.relativePath, uploadedRemote hashes l) ::
              rest.map (fun l2 => (l2.relativePath, uploadedRemote hashes l2)))
            l.relativePath = some (uploadedRemote hashes l) := by
          unfold smapGet
          simp [List.find?]
        have hsha : (uploadedRemote hashes l).sha256 = some h := by
          unfold uploadedRemote
          exact hget
        simp only [hfind, hsha, hget, optTruthy]
        have hne2 : (some h != some h) = false := by simp
        simp only [hne2, Bool.and_false]
        have htr : (h != "") = true := by simp [hne0]
        simp only [htr, Bool.not_true, Bool.false_eq_true, if_false, Bool.and_true,
          Bool.true_and, Bool.and_self]
        have hdel : smapDelete
            ((l.relativePath, uploadedRemote hashes l) ::
              rest.map (fun l2 => (l2.relativePath, uploadedRemote hashes l2)))
            l.relativePath =
            rest.map (fun l2 => (l2.relativePath, uploadedRemote hashes l2)) := by
          unfold smapDelete
          simp only [List.filter_cons]
          have hhead : ((l.relativePath, uploadedRemote hashes l).1 != l.relativePath) =
              false := by
            simp
          rw [hhead]
          simp only [Bool.false_eq_true, if_false]
          rw [List.filter_eq_self]
          intro q hq
          rcases List.mem_map.mp hq with ⟨l2, hl2, rfl⟩
          simp only [bne_iff_ne, ne_eq]
          intro hcontra
          exact hnd.1 (by
            rw [← hcontra]
            exact List.mem_map_of_mem LocalFile.relativePath hl2)
        rw [hdel]
      rw [hstep]
      rw [ih { p with skips := p.skips ++
          [⟨.skip, some l, some (uploadedRemote hashes l), "unchanged"⟩] }
        (fun l2 h2 => hne l2 (List.mem_cons_of_mem l h2))
        (fun l2 h2 => hh l2 (List.mem_cons_of_mem l h2)) hnd.2]
      simp

/-- Claim C4: a second sync run is idempotent — when the remote listing is
exactly what a fully successful first run leaves (one entry per local file,
keyed by the display name the upload was given, namely the relative path,
with the content hash), the plan has no uploads and no deletes, and every
local file is a skip. -/
theorem C4_second_run_idempotent (locals : List LocalFile) (hashes : SMap String)
    (hne : ∀ l ∈ locals, l.relativePath ≠ "")
    (hh : ∀ l ∈ locals, ∃ h, smapGet hashes l.absolutePath = some h ∧ h ≠ "")
    (hnd : (locals.map LocalFile.relativePath).Nodup) :
    (buildSyncPlan locals hashes (locals.map (uploadedRemote hashes)) true).uploads = [] ∧
      (buildSyncPlan locals hashes (locals.map (uploadedRemote hashes)) true).deletes = [] ∧
      (buildSyncPlan locals hashes (locals.map (uploadedRemote hashes)) true).skips.map
        SyncAction.localFile = locals.map some := by
  have hidx : buildRemoteIndex (locals.map (uploadedRemote hashes)) =
      locals.map (fun l => (l.relativePath, uploadedRemote hashes l)) := by
    rw [buildRemoteIndex_eq_map]
    · rw [List.map_map]
      rfl
    · intro r hr
      rcases List.mem_map.mp hr with ⟨l, hl, rfl⟩
      exact hne l hl
    · rw [List.map_map]
      exact hnd
  unfold buildSyncPlan buildSyncPlanWith
  simp only [hidx, C4_fold hashes locals ⟨[], [], []⟩ hne hh hnd]
  simp [List.map_map]

def w4LocalA : LocalFile := ⟨"a.txt", "/root/a.txt", 1⟩

def w4LocalB : LocalFile := ⟨"b.txt", "/root/b.txt", 2⟩

def w4Hashes : SMap String := [("/root/a.txt", "h1"), ("/root/b.txt", "h2")]

/-- Witness for C4: two files uploaded by a first run are both skipped on the
second run. -/
theorem C4_witness :
    (buildSyncPlan [w4LocalA, w4LocalB] w4Hashes
        ([w4LocalA, w4LocalB].map (uploadedRemote w4Hashes)) true).uploads = [] ∧
      (buildSyncPlan [w4LocalA, w4LocalB] w4Hashes
        ([w4LocalA, w4LocalB].map (uploadedRemote w4Hashes)) true).deletes = [] ∧
      (buildSyncPlan [w4LocalA, w4LocalB] w4Hashes
        ([w4LocalA, w4LocalB].map (uploadedRemote w4Hashes)) true).skips.map
        SyncAction.localFile = [w4LocalA, w4LocalB].map some :=
  C4_second_run_idempotent [w4LocalA, w4LocalB] w4Hashes
    (by decide)
    (fun l hl => by
      simp only [List.mem_cons, List.not_mem_nil, or_false] at hl
      rcases hl with rfl | rfl
      · exact ⟨"h1", rfl, by decide⟩
      · exact ⟨"h2", rfl, by decide⟩)
    (by decide)

/-! Counting helpers and structural lemmas for the partition property. -/

def countLocal (l : LocalFile) (acts : List SyncAction) : Nat :=
  acts.countP (fun a => decide (a.localFile = some l))

def countRemote (r : RemoteFile) (acts : List SyncAction) : Nat :=
  acts.countP (fun a => decide (a.remoteFile = some r))

def countVal (r : RemoteFile) (m : SMap RemoteFile) : Nat :=
  m.countP (fun q => decide (q.2 = r))

theorem processLocal_step (key : String → String) (hashes : SMap String)
    (st : SyncPlan × SMap RemoteFile) (l : LocalFile) :
    ∃ a : SyncAction,
      a.localFile = some l ∧
      ((processLocal key hashes st l).1.uploads = st.1.uploads ++ [a] ∧
          (processLocal key hashes st l).1.skips = st.1.skips ∨
        (processLocal key hashes st l).1.uploads = st.1.uploads ∧
          (processLocal key hashes st l).1.skips = st.1.skips ++ [a]) ∧
      (processLocal key hashes st l).1.deletes = st.1.deletes ∧
      (processLocal key hashes st l).2 = smapDelete st.2 (key l.relativePath) ∧
      a.remoteFile = smapGet st.2 (key l.relativePath) := by
  unfold processLocal
  cases hget : smapGet st.2 (key l.relativePath) with
  | none =>
      refine ⟨⟨.upload, some l, none, "new file"⟩, rfl, Or.inl ⟨?_, ?_⟩, ?_, ?_, ?_⟩ <;>
        simp [hget]
  | some r =>
      by_cases hc1 : (optTruthy r.sha256 && optTruthy (smapGet hashes l.absolutePath) &&
          (r.sha256 != smapGet hashes l.absolutePath)) = true
      · refine ⟨⟨.upload, some l, some r, "content changed"⟩, rfl, Or.inl ⟨?_, ?_⟩,
          ?_, ?_, ?_⟩ <;> simp [hget, hc1]
      · by_cases hc2 : (!optTruthy r.sha256) = true
        · refine ⟨⟨.upload, some l, some r, "missing remote hash"⟩, rfl, Or.inl ⟨?_, ?_⟩,
            ?_, ?_, ?_⟩ <;> simp [hget, hc1, hc2]
        · refine ⟨⟨.skip, some l, some r, "unchanged"⟩, rfl, Or.inr ⟨?_, ?_⟩,
            ?_, ?_, ?_⟩ <;> simp [hget, hc1, hc2]




theorem fold_deletes (key : String → String) (hashes : SMap String) :
    ∀ (ls : List LocalFile) (st : SyncPlan × SMap RemoteFile),
      (ls.foldl (processLocal key hashes) st).1.deletes = st.1.deletes := by
  intro ls
  induction ls with
  | nil => intro st; rfl
  | cons l rest ih =>
      intro st
      simp only [List.foldl_cons]
      rcases processLocal_step key hashes st l with ⟨a, _, _, hdel, _, _⟩
      rw [ih (processLocal key hashes st l)]
      exact hdel

theorem fold_localCount (key : String → String) (hashes : SMap String) (l0 : LocalFile) :
    ∀ (ls : List LocalFile) (st : SyncPlan × SMap RemoteFile),
      countLocal l0 ((ls.foldl (processLocal key hashes) st).1.uploads ++
          (ls.foldl (processLocal key hashes) st).1.skips) =
        countLocal l0 (st.1.uploads ++ st.1.skips) + ls.count l0 := by
  intro ls
  induction ls with
  | nil => intro st; simp
  | cons l rest ih =>
      intro st
      simp only [List.foldl_cons]
      rw [ih (processLocal key hashes st l)]
      rcases processLocal_step key hashes st l with ⟨a, hal, hor, _, _, _⟩
      have hstep : countLocal l0 ((processLocal key hashes st l).1.uploads ++
          (processLocal key hashes st l).1.skips) =
          countLocal l0 (st.1.uploads ++ st.1.skips) +
            (if a.localFile = some l0 then 1 else 0) := by
        rcases hor with ⟨hu, hs⟩ | ⟨hu, hs⟩ <;>
          · rw [hu, hs]
            unfold countLocal
            simp only [List.countP_append, List.countP_cons, List.countP_nil]
            by_cases hl0 : a.localFile = some l0 <;> simp [hl0] <;> omega
      rw [hstep, hal]
      have hcnt : (l :: rest).count l0 = rest.count l0 + (if some l = some l0 then 1 else 0) := by
        rw [List.count_cons]
        by_cases heq : l = l0
        · subst heq
          simp
        · have : ¬(l0 == l) = true := by
            simp only [beq_iff_eq]
            exact fun hcontra => heq hcontra.symm
          simp [heq, this]
      rw [hcnt]
      omega

theorem fold_index (key : String → String) (hashes : SMap String) :
    ∀ (ls : List LocalFile) (st : SyncPlan × SMap RemoteFile),
      (ls.foldl (processLocal key hashes) st).2 =
        st.2.filter (fun q => ls.all (fun l => q.1 != key l.relativePath)) := by
  intro ls
  induction ls with
  | nil => intro st; simp
  | cons l rest ih =>
      intro st
      simp only [List.foldl_cons]
      rw [ih (processLocal key hashes st l)]
      rcases processLocal_step key hashes st l with ⟨a, _, _, _, hidx, _⟩
      rw [hidx]
      unfold smapDelete
      rw [List.filter_filter]
      apply List.filter_congr
      intro q hq
      simp only [List.all_cons]
      rw [Bool.and_comm]




theorem smapGet_mem {α : Type} {m : SMap α} {k : String} {v : α}
    (h : smapGet m k = some v) : (k, v) ∈ m := by
  unfold smapGet at h
  cases hf : m.find? (fun p => p.1 == k) with
  | none => rw [hf] at h; simp at h
  | some q =>
      rw [hf] at h
      simp at h
      have hq := List.find?_some hf
      have hm := List.mem_of_find?_eq_some hf
      have hk : q.1 = k := by simpa using hq
      have hqe : q = (k, v) := Prod.ext hk h
      rw [← hqe]
      exact hm

theorem fold_remoteCount (key : String → String) (hashes : SMap String) (r : RemoteFile) :
    ∀ (ls : List LocalFile) (st : SyncPlan × SMap RemoteFile),
      (∀ q ∈ st.2, q.1 = q.2.originalFileName) →
      countRemote r ((ls.foldl (processLocal key hashes) st).1.uploads ++
          (ls.foldl (processLocal key hashes) st).1.skips) +
        countVal r (ls.foldl (processLocal key hashes) st).2 ≤
        countRemote r (st.1.uploads ++ st.1.skips) + countVal r st.2 := by
  intro ls
  induction ls with
  | nil => intro st _; exact Nat.le_refl _
  | cons l rest ih =>
      intro st hcoh
      simp only [List.foldl_cons]
      rcases processLocal_step key hashes st l with ⟨a, _, hor, _, hidx, hrem⟩
      have hcoh2 : ∀ q ∈ (processLocal key hashes st l).2, q.1 = q.2.originalFileName := by
        intro q hq
        rw [hidx] at hq
        unfold smapDelete at hq
        exact hcoh q (List.mem_of_mem_filter hq)
      have hih := ih (processLocal key hashes st l) hcoh2
      have hstep : countRemote r ((processLocal key hashes st l).1.uploads ++
          (processLocal key hashes st l).1.skips) +
            countVal r (processLocal key hashes st l).2 ≤
          countRemote r (st.1.uploads ++ st.1.skips) + countVal r st.2 := by
        have hcr : countRemote r ((processLocal key hashes st l).1.uploads ++
            (processLocal key hashes st l).1.skips) =
            countRemote r (st.1.uploads ++ st.1.skips) +
              (if a.remoteFile = some r then 1 else 0) := by
          rcases hor with ⟨hu, hs⟩ | ⟨hu, hs⟩ <;>
            · rw [hu, hs]
              unfold countRemote
              simp only [List.countP_append, List.countP_cons, List.countP_nil]
              by_cases hr0 : a.remoteFile = some r <;> simp [hr0] <;> omega
        rw [hcr, hidx]
        by_cases hmatch : a.remoteFile = some r
        · have hget : smapGet st.2 (key l.relativePath) = some r := by
            rw [← hrem]; exact hmatch
          have hmem : (key l.relativePath, r) ∈ st.2 := smapGet_mem hget
          have hpos : 1 ≤ countVal r st.2 := by
            unfold countVal
            have : 0 < st.2.countP (fun q => decide (q.2 = r)) := by
              rw [List.countP_pos_iff]
              exact ⟨(key l.relativePath, r), hmem, by simp⟩
            omega
          have hkey : key l.relativePath = r.originalFileName := hcoh _ hmem
          have hzero : countVal r (smapDelete st.2 (key l.relativePath)) = 0 := by
            unfold countVal smapDelete
            rw [List.countP_eq_zero]
            intro q hq
            rcases List.mem_filter.mp hq with ⟨hqm, hqk⟩
            simp only [decide_eq_true_eq]
            intro hqr
            have : q.1 = r.originalFileName := by rw [hcoh q hqm, hqr]
            rw [this, ← hkey] at hqk
            simp at hqk
          rw [hzero]
          simp only [hmatch, if_true]
          omega
        · have hle : countVal r (smapDelete st.2 (key l.relativePath)) ≤ countVal r st.2 := by
            unfold countVal smapDelete
            exact List.Sublist.countP_le _ (List.filter_sublist st.2)
          simp only [hmatch, if_false]
          omega
      exact Nat.le_trans hih hstep




theorem buildSyncPlanWith_eq (key : String → String) (locals : List LocalFile)
    (hashes : SMap String) (remotes : List RemoteFile) (flag : Bool) :
    buildSyncPlanWith key locals hashes remotes flag =
      ⟨(locals.foldl (processLocal key hashes)
          (⟨[], [], []⟩, buildRemoteIndex remotes)).1.uploads,
       (locals.foldl (processLocal key hashes)
          (⟨[], [], []⟩, buildRemoteIndex remotes)).1.skips,
       if flag then
         (locals.foldl (processLocal key hashes)
            (⟨[], [], []⟩, buildRemoteIndex remotes)).2.map
           (fun p => ⟨.delete, none, some p.2, "not in local"⟩)
       else []⟩ := by
  unfold buildSyncPlanWith
  have hd : (locals.foldl (processLocal key hashes)
      (⟨[], [], []⟩, buildRemoteIndex remotes)).1.deletes = [] :=
    fold_deletes key hashes locals (⟨[], [], []⟩, buildRemoteIndex remotes)
  cases hF : locals.foldl (processLocal key hashes)
      (⟨[], [], []⟩, buildRemoteIndex remotes) with
  | mk plan idx =>
      rw [hF] at hd
      cases plan with
      | mk u s d =>
          have hd2 : d = [] := hd
          subst hd2
          cases flag <;> simp [hF]

/-- Claim C1 (amended): provided every remote file declares a nonempty
original identity and the declared identities are pairwise distinct, the plan
is a partition — every local file appears in exactly one action, which is an
upload or a skip and never a delete; a remote file whose identity matches no
local relative path appears in the deletes exactly when delete mode is
enabled; and no remote file appears in two actions. -/
theorem C1_partition (locals : List LocalFile) (hashes : SMap String)
    (remotes : List RemoteFile) (flag : Bool)
    (hne : ∀ r ∈ remotes, r.originalFileName ≠ "")
    (hnd : (remotes.map RemoteFile.originalFileName).Nodup) :
    (∀ l : LocalFile,
      countLocal l ((buildSyncPlan locals hashes remotes flag).uploads ++
        (buildSyncPlan locals hashes remotes flag).skips) = locals.count l) ∧
    (∀ a ∈ (buildSyncPlan locals hashes remotes flag).deletes,
      a.localFile = none ∧ a.type = ActionType.delete) ∧
    (∀ r ∈ remotes, r.originalFileName ∉ locals.map LocalFile.relativePath →
      ((∃ a ∈ (buildSyncPlan locals hashes remotes flag).deletes, a.remoteFile = some r) ↔
        flag = true)) ∧
    (∀ r : RemoteFile,
      countRemote r ((buildSyncPlan locals hashes remotes flag).uploads ++
        (buildSyncPlan locals hashes remotes flag).skips ++
        (buildSyncPlan locals hashes remotes flag).deletes) ≤ 1) := by
  have hidx := buildRemoteIndex_eq_map remotes hne hnd
  have heqB : buildSyncPlan locals hashes remotes flag =
      ⟨(locals.foldl (processLocal (fun p => p) hashes)
          (⟨[], [], []⟩, buildRemoteIndex remotes)).1.uploads,
       (locals.foldl (processLocal (fun p => p) hashes)
          (⟨[], [], []⟩, buildRemoteIndex remotes)).1.skips,
       if flag then
         (locals.foldl (processLocal (fun p => p) hashes)
            (⟨[], [], []⟩, buildRemoteIndex remotes)).2.map
           (fun p => ⟨.delete, none, some p.2, "not in local"⟩)
       else []⟩ :=
    buildSyncPlanWith_eq (fun p => p) locals hashes remotes flag
  have hcoh0 : ∀ q ∈ buildRemoteIndex remotes, q.1 = q.2.originalFileName := by
    rw [hidx]
    intro q hq
    rcases List.mem_map.mp hq with ⟨r2, _, rfl⟩
    rfl
  refine ⟨?_, ?_, ?_, ?_⟩
  · intro l
    rw [heqB]
    have h := fold_localCount (fun p => p) hashes l locals
      (⟨[], [], []⟩, buildRemoteIndex remotes)
    simpa [countLocal] using h
  · intro a ha
    rw [heqB] at ha
    simp only at ha
    cases flag with
    | false => simp at ha
    | true =>
        simp only [if_true] at ha
        rcases List.mem_map.mp ha with ⟨q, _, rfl⟩
        exact ⟨rfl, rfl⟩
  · intro r hr hnm
    rw [heqB]
    simp only
    cases flag with
    | false => simp
    | true =>
        simp only [if_true]
        have hfin := fold_index (fun p => p) hashes locals
          (⟨[], [], []⟩, buildRemoteIndex remotes)
        constructor
        · intro _
          trivial
        · intro _
          refine ⟨⟨.delete, none, some r, "not in local"⟩, ?_, rfl⟩
          refine List.mem_map.mpr ⟨(r.originalFileName, r), ?_, rfl⟩
          rw [hfin]
          apply List.mem_filter.mpr
          constructor
          · show (r.originalFileName, r) ∈ buildRemoteIndex remotes
            rw [hidx]
            exact List.mem_map_of_mem (fun r2 => (r2.originalFileName, r2)) hr
          · rw [List.all_eq_true]
            intro l hl
            simp only [bne_iff_ne, ne_eq]
            intro hcontra
            exact hnm (by
              rw [hcontra]
              exact List.mem_map_of_mem LocalFile.relativePath hl)
  · intro r
    rw [heqB]
    set F := locals.foldl (processLocal (fun p => p) hashes)
      (⟨[], [], []⟩, buildRemoteIndex remotes) with hF
    have hinv : countRemote r (F.1.uploads ++ F.1.skips) + countVal r F.2 ≤
        0 + countVal r (buildRemoteIndex remotes) := by
      rw [hF]
      exact fold_remoteCount (fun p => p) hashes r locals
        (⟨[], [], []⟩, buildRemoteIndex remotes) hcoh0
    have hm0 : countVal r (buildRemoteIndex remotes) ≤ 1 := by
      rw [hidx]
      unfold countVal
      rw [List.countP_map]
      have hpred : ((fun q => decide (q.2 = r)) ∘ (fun r2 => (r2.originalFileName, r2))) =
          (fun r2 => decide (r2 = r)) := by
        funext r2
        rfl
      rw [hpred]
      show remotes.count r ≤ 1
      exact List.nodup_iff_count_le_one.mp (List.Nodup.of_map _ hnd) r
    cases flag with
    | false =>
        show countRemote r (F.1.uploads ++ F.1.skips ++ ([] : List SyncAction)) ≤ 1
        have he : countRemote r (F.1.uploads ++ F.1.skips ++ ([] : List SyncAction)) =
            countRemote r (F.1.uploads ++ F.1.skips) := by
          rw [List.append_nil]
        rw [he]
        omega
    | true =>
        show countRemote r (F.1.uploads ++ F.1.skips ++ F.2.map
          (fun p => (⟨.delete, none, some p.2, "not in local"⟩ : SyncAction))) ≤ 1
        have he : countRemote r (F.1.uploads ++ F.1.skips ++ F.2.map
            (fun p => (⟨.delete, none, some p.2, "not in local"⟩ : SyncAction))) =
            countRemote r (F.1.uploads ++ F.1.skips) + countVal r F.2 := by
          unfold countRemote countVal
          rw [List.countP_append, List.countP_map]
          have hpred2 : ((fun a => decide (a.remoteFile = some r)) ∘
              (fun (p : String × RemoteFile) =>
                (⟨.delete, none, some p.2, "not in local"⟩ : SyncAction))) =
              (fun (q : String × RemoteFile) => decide (q.2 = r)) := by
            funext q
            simp
          rw [hpred2]
        rw [he]
        omega




def cex1R1 : RemoteFile := ⟨"files/1", "x.txt", "x.txt", some "h", "ACTIVE"⟩

def cex1R2 : RemoteFile := ⟨"files/2", "x.txt", "x.txt", some "h", "ACTIVE"⟩

/-- Claim C1, counterexample to the claim as stated: two remote files that
declare the same original identity collapse in the index, so with delete mode
enabled the earlier one appears in no action of the plan even though its
identity matches no local file. -/
theorem C1_counterexample :
    ¬(∃ a ∈ (buildSyncPlan [] [] [cex1R1, cex1R2] true).deletes,
        a.remoteFile = some cex1R1) ∧
      cex1R1 ≠ cex1R2 ∧
      (buildSyncPlan [] [] [cex1R1, cex1R2] true).deletes.length = 1 := by
  decide

def w1Local : LocalFile := ⟨"a.txt", "/root/a.txt", 1⟩

def w1RA : RemoteFile := ⟨"files/1", "a.txt", "a.txt", some "hA", "ACTIVE"⟩

def w1RC : RemoteFile := ⟨"files/2", "c.txt", "c.txt", some "hC", "ACTIVE"⟩

/-- Witness for C1: one matching local file and one orphan remote file. -/
theorem C1_witness :
    countLocal w1Local
        ((buildSyncPlan [w1Local] [("/root/a.txt", "hA")] [w1RA, w1RC] true).uploads ++
          (buildSyncPlan [w1Local] [("/root/a.txt", "hA")] [w1RA, w1RC] true).skips) = 1 ∧
      ((∃ a ∈ (buildSyncPlan [w1Local] [("/root/a.txt", "hA")] [w1RA, w1RC] true).deletes,
          a.remoteFile = some w1RC) ↔ true = true) := by
  have h := C1_partition [w1Local] [("/root/a.txt", "hA")] [w1RA, w1RC] true
    (by decide) (by decide)
  exact ⟨(h.1 w1Local).trans (by decide), h.2.2.1 w1RC (by decide) (by decide)⟩

end Gemindex
